import Mathlib

/-! Verification of subprocesscpp, `subprocess.hpp`.

A shallow embedding of `src/subprocess.hpp`: the blocking driver `execute`, the
collecting wrapper `checkOutput`, the future-returning `async`, and the pull
iterator `ProcessStream::iterator`.

Conventions of the embedding

* The operating system is a parameter (`Env`): what `fork()` returns, whether
  `execv` fails in the child, what `waitpid` leaves in `status`, and how the
  child answers on its standard output.
* Every operation the parent performs is appended to a trace (`List Event`).
* The caller's callback `std::function<void(std::string)>` is a state
  transformer `σ → String → σ` over an arbitrary callback state `σ`.
* A reference parameter is an input of the function and a component of what
  it returns. Pointers to `ProcessStream` objects are addresses (`Nat`) into a
  `Heap`; where copies of the caller's list matter (`async`), list objects are
  addresses into a `ListStore`.
* In the forked child (`fork()` returned `0`) the call never returns to the
  caller: it ends in `execv` or in `exit(1)`.
* The read loop of `execute` is the only unbounded loop; it is run with fuel,
  one unit per evaluation of the loop condition.
-/

namespace subprocess

/-! ## The duplex pipe (`subprocess_utils.hpp`, not part of `src/`) -/

/-- One answer of the channel to a `readLine()` call: the string returned and
the value `isGood()` reports afterwards. -/
structure ReadResult where
  line : String
  good : Bool
deriving DecidableEq, Repr

/-- Operations of the parent process, in the order performed. -/
inductive Event where
  | fork (ret : Int)
  | setAsParentEnd
  | writeP (s : String)
  | closeOutput
  | readLine (r : ReadResult)
  | lambda (s : String)
  | waitpid (pid : Int)
deriving DecidableEq, Repr

/-- Modelled from the spec: the class `TwoWayPipe` of `subprocess_utils.hpp`,
which is not among the sources. The spec gives it the operations
`setAsParentEnd`, `writeP`, `closeOutput`, `readLine` and `isGood`; the state
kept here is what those operations can observe: the behaviour of the peer
(`child`, the answers to successive reads as a function of everything written),
the strings written so far, whether the parent end was selected, whether the
input direction was half-closed, the number of reads performed and the flag
left by the most recent read. -/
structure TwoWayPipe where
  child : List String → Nat → ReadResult
  sent : List String
  parentEnd : Bool
  inputClosed : Bool
  nread : Nat
  good : Bool

/-- Modelled from the spec: default construction of a `TwoWayPipe` (both
directions open, nothing written, nothing read). -/
def TwoWayPipe.create (child : List String → Nat → ReadResult) : TwoWayPipe :=
  { child := child, sent := [], parentEnd := false, inputClosed := false,
    nread := 0, good := true }

/-- Modelled from the spec: `setAsParentEnd()` keeps the parent-side
endpoints. -/
def TwoWayPipe.setAsParentEnd (p : TwoWayPipe) (t : List Event) :
    TwoWayPipe × List Event :=
  ({ p with parentEnd := true }, t ++ [Event.setAsParentEnd])

/-- Modelled from the spec: `writeP(line)` writes one string to the child's
input, adding no framing of its own. -/
def TwoWayPipe.writeP (p : TwoWayPipe) (s : String) (t : List Event) :
    TwoWayPipe × List Event :=
  ({ p with sent := p.sent ++ [s] }, t ++ [Event.writeP s])

/-- Modelled from the spec: `closeOutput()` half-closes the input-to-child
direction. -/
def TwoWayPipe.closeOutput (p : TwoWayPipe) (t : List Event) :
    TwoWayPipe × List Event :=
  ({ p with inputClosed := true }, t ++ [Event.closeOutput])

/-- Modelled from the spec: `readLine()` returns the next answer of the child
and records whether it was real data. -/
def TwoWayPipe.readLine (p : TwoWayPipe) (t : List Event) :
    String × TwoWayPipe × List Event :=
  let r := p.child p.sent p.nread
  (r.line, { p with nread := p.nread + 1, good := r.good }, t ++ [Event.readLine r])

/-- Modelled from the spec: `isGood()` reports the flag left by the most
recent `readLine()`. -/
def TwoWayPipe.isGood (p : TwoWayPipe) : Bool := p.good

/-! ## The operating system -/

/-- What the operating system does during one spawn.
* `forkRet` is the value `fork()` returns in the process being modelled
  (`0` in the child, the child's pid in the parent, `-1` on failure);
* `execvFails` tells whether `execv` returns in the child;
* `waitStatus pid` is the content of `status` after `waitpid(pid, &status, 0)`;
* `child` is the behaviour of the spawned program on its standard output. -/
structure Env where
  forkRet : Int
  execvFails : Bool
  waitStatus : Int → Int
  child : List String → Nat → ReadResult

/-- How a call ends. -/
inductive Result (α : Type) where
  | outOfFuel
  | childExecv (path : String) (argv : List String)
  | childExit (code : Int)
  | returned (a : α)

/-- Transport of the value a call returned. -/
def Result.map {α β : Type} (f : α → β) : Result α → Result β
  | Result.outOfFuel => Result.outOfFuel
  | Result.childExecv path argv => Result.childExecv path argv
  | Result.childExit code => Result.childExit code
  | Result.returned a => Result.returned (f a)

/-! ## `execute` -/

/-- What a returned call of `execute` leaves behind: the `int` it returns, the
caller's list (a reference parameter), the state of the callback and the
trace of operations. -/
structure ExecReturn (σ : Type) where
  status : Int
  stringInput : List String
  lambdaState : σ
  trace : List Event

/-- Lines 67-72: `while (!stringInput.empty()) { front; pop_front; writeP }`.
Returns the list as the loop leaves it. -/
def pumpInput : List String → TwoWayPipe → List Event →
    List String × TwoWayPipe × List Event
  | [], p, t => ([], p, t)
  | newInput :: rest, p, t =>
    let (p1, t1) := p.writeP newInput t
    pumpInput rest p1 t1

/-- Lines 78-81: `while (p.isGood()) { lambda(input); input = p.readLine(); }`,
one unit of fuel per test of the condition. -/
def readLoop {σ : Type} (lambda : σ → String → σ) :
    Nat → TwoWayPipe → String → σ → List Event → Option (TwoWayPipe × σ × List Event)
  | 0, _, _, _, _ => none
  | fuel + 1, p, input, st, t =>
    if p.isGood then
      let st1 := lambda st input
      let t1 := t ++ [Event.lambda input]
      let (input1, p1, t2) := p.readLine t1
      readLoop lambda fuel p1 input1 st1 t2
    else
      some (p, st, t)

/-- Lines 32-87. -/
def execute {σ : Type} (env : Env) (fuel : Nat) (commandPath : String)
    (commandArgs : List String) (stringInput : List String)
    (lambda : σ → String → σ) (st : σ) : Result (ExecReturn σ) :=
  let p := TwoWayPipe.create env.child
  let cargs := commandPath :: commandArgs
  let pid := env.forkRet
  let t := [Event.fork pid]
  if pid = 0 then
    if env.execvFails then Result.childExit 1 else Result.childExecv commandPath cargs
  else
    let (p1, t1) := p.setAsParentEnd t
    let (stringInput1, p2, t2) := pumpInput stringInput p1 t1
    let (p3, t3) := p2.closeOutput t2
    let (input, p4, t4) := p3.readLine t3
    match readLoop lambda fuel p4 input st t4 with
    | none => Result.outOfFuel
    | some (_, st1, t5) =>
      let status := env.waitStatus pid
      Result.returned
        { status := status, stringInput := stringInput1, lambdaState := st1,
          trace := t5 ++ [Event.waitpid pid] }

/-! ## `checkOutput` -/

/-- What a returned call of `checkOutput` leaves behind: the vector it returns,
the `status` out-parameter and the caller's list. -/
structure CheckReturn where
  retVec : List String
  status : Int
  stringInput : List String
  trace : List Event

/-- Lines 90-97: `execute` with the callback `retVec.push_back(std::move(s))`. -/
def checkOutput (env : Env) (fuel : Nat) (commandPath : String)
    (commandArgs : List String) (stringInput : List String) : Result CheckReturn :=
  let retVec : List String := []
  match execute env fuel commandPath commandArgs stringInput
      (fun (v : List String) s => v ++ [s]) retVec with
  | Result.outOfFuel => Result.outOfFuel
  | Result.childExecv path argv => Result.childExecv path argv
  | Result.childExit code => Result.childExit code
  | Result.returned r =>
    Result.returned
      { retVec := r.lambdaState, status := r.status, stringInput := r.stringInput,
        trace := r.trace }

/-! ## `async` -/

/-- Memory holding `std::list<std::string>` objects, by address; the addresses
from `next` on are free. -/
structure ListStore where
  obj : Nat → List String
  next : Nat

/-- Copy construction of a list object from the one at `src`; the new object
lives at a fresh address, which is returned. -/
def ListStore.copy (m : ListStore) (src : Nat) : Nat × ListStore :=
  (m.next, { obj := Function.update m.obj m.next (m.obj src), next := m.next + 1 })

/-- The call `execute(cp, ca, x, l)` where `x` is the list object at address
`ref`: the parameter `std::list<std::string>& stringInput` is bound to that
object, which holds at return what the body left in it. -/
def executeRef {σ : Type} (env : Env) (fuel : Nat) (commandPath : String)
    (commandArgs : List String) (ref : Nat) (lambda : σ → String → σ) (st : σ)
    (m : ListStore) : Result (ExecReturn σ × ListStore) :=
  (execute env fuel commandPath commandArgs (m.obj ref) lambda st).map
    (fun r => (r, { m with obj := Function.update m.obj ref r.stringInput }))

/-- The handle `std::future<T>`, seen through the value `get()` yields. -/
structure Future (α : Type) where
  get : α

/-- The call `std::async(std::launch::async, f, cp, ca, x, l)` with `x` the list
object at `arg`: the arguments are copied into storage owned by the new thread,
and `f` is run on parameters initialised from those copies; the future holds
what `f` returned. Scheduling is not part of the model. -/
def std_async {ρ : Type} {σ : Type}
    (f : String → List String → Nat → (σ → String → σ) → ListStore → ρ)
    (cp : String) (ca : List String) (arg : Nat) (l : σ → String → σ) (m : ListStore) :
    Future ρ :=
  let (stored, m1) := m.copy arg
  let (si, m2) := m1.copy stored
  { get := f cp ca si l m2 }

/-- What a call of `async` leaves behind: the future of the status, and the
run of the worker with the memory as the worker leaves it. -/
structure AsyncReturn (σ : Type) where
  future : Future (Result Int)
  worker : Result (ExecReturn σ × ListStore)

/-- Lines 100-109, called on the caller's list object at address `callerList`.
The parameter `stringInput` is taken by value, so it is a copy of the caller's
object; `std::async` copies it again for the worker, whose closure calls
`execute(cp, ca, si, l)` on its own parameter `si`. -/
def async {σ : Type} (env : Env) (fuel : Nat) (commandPath : String)
    (commandArgs : List String) (callerList : Nat)
    (lambda : σ → String → σ) (st : σ) (m : ListStore) : AsyncReturn σ :=
  let (stringInput, m1) := m.copy callerList
  let run := std_async
    (fun (cp : String) (ca : List String) (si : Nat) (l : σ → String → σ) (m2 : ListStore) =>
      executeRef env fuel cp ca si l st m2)
    commandPath commandArgs stringInput lambda m1
  { future := { get := run.get.map (fun x => x.1.status) },
    worker := run.get }

/-! ## `ProcessStream` -/

/-- Lines 120-123: the data members of `ProcessStream`. -/
structure ProcessStream where
  statusCode : Int
  childPid : Int
  p : TwoWayPipe

/-- Memory holding `ProcessStream` objects, by address. -/
abbrev Heap := Nat → ProcessStream

/-- The state a member function works on: the objects and the trace. -/
structure World where
  heap : Heap
  trace : List Event

/-- Lines 126-168: the constructor of the object at address `this`. The member
`statusCode` is not initialised and keeps what the memory held. -/
def ProcessStream.ctor (env : Env) (this : Nat) (commandPath : String)
    (commandArgs : List String) (stringInput : List String) (w : World) :
    Result (World × List String) :=
  let p := TwoWayPipe.create env.child
  let cargs := commandPath :: commandArgs
  let childPid := env.forkRet
  let t := w.trace ++ [Event.fork childPid]
  if childPid = 0 then
    if env.execvFails then Result.childExit 1 else Result.childExecv commandPath cargs
  else
    let (p1, t1) := p.setAsParentEnd t
    let (stringInput1, p2, t2) := pumpInput stringInput p1 t1
    let (p3, t3) := p2.closeOutput t2
    Result.returned
      ({ heap := Function.update w.heap this
            { statusCode := (w.heap this).statusCode, childPid := childPid, p := p3 },
         trace := t3 },
       stringInput1)

/-- Lines 169-171: the destructor reaps the child into `statusCode`. -/
def ProcessStream.dtor (waitStatus : Int → Int) (this : Nat) (w : World) : World :=
  let s := w.heap this
  { heap := Function.update w.heap this { s with statusCode := waitStatus s.childPid },
    trace := w.trace ++ [Event.waitpid s.childPid] }

/-- Lines 173-177: the data members of `ProcessStream::iterator`; `ps` is the
address of the stream. -/
structure ProcessStream.iterator where
  ps : Nat
  isFinished : Bool
  cline : String
deriving DecidableEq, Repr

/-- Lines 186-188: `operator*`. -/
def ProcessStream.iterator.deref (it : ProcessStream.iterator) : String := it.cline

/-- Lines 191-199: `operator++` (preincrement). -/
def ProcessStream.iterator.inc (it : ProcessStream.iterator) (w : World) :
    ProcessStream.iterator × World :=
  let s := w.heap it.ps
  let (line, p1, t1) := s.p.readLine w.trace
  let w1 : World := { heap := Function.update w.heap it.ps { s with p := p1 }, trace := t1 }
  let it1 := { it with cline := line }
  if it1.cline.isEmpty then
    ({ it1 with isFinished := true }, w1)
  else
    (it1, w1)

/-- Lines 179-182: `iterator(ProcessStream* ps)`, which advances once. -/
def ProcessStream.iterator.ctor (ps : Nat) (w : World) : ProcessStream.iterator × World :=
  ProcessStream.iterator.inc { ps := ps, isFinished := false, cline := "" } w

/-- Line 184: `iterator(ProcessStream* ps, bool)`, the constructor used by
`end()`. -/
def ProcessStream.iterator.ctorEnd (ps : Nat) : ProcessStream.iterator :=
  { ps := ps, isFinished := true, cline := "" }

/-- Lines 201-203: `operator==`. -/
def ProcessStream.iterator.eq (this other : ProcessStream.iterator) : Bool :=
  other.ps == this.ps && this.isFinished == other.isFinished

/-- Lines 205-207: `operator!=`. -/
def ProcessStream.iterator.ne (this other : ProcessStream.iterator) : Bool :=
  !(this.eq other)

/-- Lines 210-212: `begin()` of the stream at address `this`. -/
def ProcessStream.begin (this : Nat) (w : World) : ProcessStream.iterator × World :=
  ProcessStream.iterator.ctor this w

/-- Lines 214-216: `end()` of the stream at address `this`. -/
def ProcessStream.end_ (this : Nat) : ProcessStream.iterator :=
  ProcessStream.iterator.ctorEnd this

/-- The cursor after `n` applications of `operator++`. -/
def ProcessStream.iterator.advance :
    Nat → ProcessStream.iterator → World → ProcessStream.iterator × World
  | 0, it, w => (it, w)
  | n + 1, it, w =>
    let (it1, w1) := it.inc w
    ProcessStream.iterator.advance n it1 w1

/-- The caller's loop `for (it = ps.begin(); it != ps.end(); ++it) out.push_back(*it);`
from the test of the condition onwards, one unit of fuel per test. -/
def collectLoop (this : Nat) :
    Nat → ProcessStream.iterator → World → List String → Option (List String × World)
  | 0, _, _, _ => none
  | fuel + 1, it, w, out =>
    if it.ne (ProcessStream.end_ this) then
      let out1 := out ++ [it.deref]
      let (it1, w1) := it.inc w
      collectLoop this fuel it1 w1 out1
    else
      some (out, w)

/-- The lines obtained by dereferencing a cursor of the stream at `this` from
`begin()` until it equals `end()`. -/
def collect (this : Nat) (fuel : Nat) (w : World) : Option (List String × World) :=
  let (it, w1) := ProcessStream.begin this w
  collectLoop this fuel it w1 []

/-! ## Reading a trace -/

/-- The arguments of the callback invocations, in order. -/
def lambdaArgs : List Event → List String
  | [] => []
  | Event.lambda s :: t => s :: lambdaArgs t
  | _ :: t => lambdaArgs t

/-- The arguments of the `writeP` calls, in order. -/
def writeArgs : List Event → List String
  | [] => []
  | Event.writeP s :: t => s :: writeArgs t
  | _ :: t => writeArgs t

/-- Whether an event is one of the channel operations `writeP`, `closeOutput`,
`readLine` or the reap `waitpid`. -/
def Event.isProtocolOp : Event → Bool
  | Event.writeP _ => true
  | Event.closeOutput => true
  | Event.readLine _ => true
  | Event.waitpid _ => true
  | _ => false

/-- The first `n` answers of a channel. -/
def answers (rs : Nat → ReadResult) (n : Nat) : List ReadResult :=
  (List.range n).map rs

/-- The first not-good answer of the channel `rs` is the one at index `k`
(counting from zero): the `k` answers before it are good. -/
def FirstBad (rs : Nat → ReadResult) (k : Nat) : Prop :=
  (∀ i, i < k → (rs i).good = true) ∧ (rs k).good = false

instance (rs : Nat → ReadResult) (k : Nat) : Decidable (FirstBad rs k) := by
  unfold FirstBad; infer_instance

/-- The strings of the answers `j, j+1, ..., j+m-1` of a channel. -/
def linesFrom (rs : Nat → ReadResult) : Nat → Nat → List String
  | _, 0 => []
  | j, m + 1 => (rs j).line :: linesFrom rs (j + 1) m

/-- The events of `m` rounds of the read loop starting with answer `j`: each
answer is read and then handed to the callback. -/
def deliveries (rs : Nat → ReadResult) : Nat → Nat → List Event
  | _, 0 => []
  | j, m + 1 => Event.readLine (rs j) :: Event.lambda (rs j).line :: deliveries rs (j + 1) m

/-- The stream at address `a` talks to the channel `c`, has written `s` and has
performed `n` reads. -/
def Reads (w : World) (a : Nat) (c : List String → Nat → ReadResult) (s : List String)
    (n : Nat) : Prop :=
  (w.heap a).p.child = c ∧ (w.heap a).p.sent = s ∧ (w.heap a).p.nread = n

/-- The lines a caller collects from a stream constructed at address `this`
by dereferencing a cursor from `begin()` until it equals `end()`. -/
def streamLines (env : Env) (this : Nat) (fuel : Nat) (commandPath : String)
    (commandArgs stringInput : List String) (w0 : World) : Option (List String) :=
  match ProcessStream.ctor env this commandPath commandArgs stringInput w0 with
  | Result.returned (w, _) => (collect this fuel w).map Prod.fst
  | _ => none

/-- The lines `execute` passes to its callback. -/
def executeLines (env : Env) (fuel : Nat) (commandPath : String)
    (commandArgs stringInput : List String) : Option (List String) :=
  match execute env fuel commandPath commandArgs stringInput (fun (u : Unit) _ => u) () with
  | Result.returned r => some (lambdaArgs r.trace)
  | _ => none

/-! ## Concrete environments -/

/-- A child that ignores its input and prints the given lines, then ends. -/
def printsLines (out : List String) : List String → Nat → ReadResult :=
  fun _ i =>
    match out.get? i with
    | some s => { line := s, good := true }
    | none => { line := "", good := false }

/-- A successful spawn (child pid 4242, exit status 0) of a child printing
`out`. -/
def spawnOk (out : List String) : Env :=
  { forkRet := 4242, execvFails := false, waitStatus := fun _ => 0, child := printsLines out }

/-- A spawn in which `fork()` fails; reads on the channel meet end-of-stream at
once and `waitpid(-1, ...)` leaves `status` at 77. -/
def spawnFails : Env :=
  { forkRet := -1, execvFails := false, waitStatus := fun _ => 77, child := printsLines [] }

/-- A memory holding the list `["x", "y"]` at address 0 and empty lists
elsewhere; addresses from 1 on are free. -/
def callerMemory : ListStore :=
  { obj := fun a => if a = 0 then ["x", "y"] else [], next := 1 }

/-- A callback that counts its invocations. -/
def countCalls : Nat → String → Nat := fun n _ => n + 1

/-- A world in which every address holds a stream whose child printed nothing;
the trace is empty. -/
def idleWorld : World :=
  { heap := fun _ =>
      { statusCode := 0, childPid := 4242, p := TwoWayPipe.create (printsLines []) },
    trace := [] }

/-! ## Lemmas on traces -/

theorem lambdaArgs_append (a b : List Event) :
    lambdaArgs (a ++ b) = lambdaArgs a ++ lambdaArgs b := by
  induction a with
  | nil => rfl
  | cons e a ih => cases e <;> simp [lambdaArgs, ih]

theorem writeArgs_append (a b : List Event) :
    writeArgs (a ++ b) = writeArgs a ++ writeArgs b := by
  induction a with
  | nil => rfl
  | cons e a ih => cases e <;> simp [writeArgs, ih]

theorem lambdaArgs_map_writeP (l : List String) :
    lambdaArgs (l.map Event.writeP) = [] := by
  induction l with
  | nil => rfl
  | cons s l ih => simpa [lambdaArgs] using ih

theorem writeArgs_map_writeP (l : List String) :
    writeArgs (l.map Event.writeP) = l := by
  induction l with
  | nil => rfl
  | cons s l ih => simpa [writeArgs] using ih

theorem lambdaArgs_deliveries (rs : Nat → ReadResult) (m : Nat) :
    ∀ j, lambdaArgs (deliveries rs j m) = linesFrom rs j m := by
  induction m with
  | zero => intro j; rfl
  | succ m ih => intro j; simp [deliveries, lambdaArgs, linesFrom, ih]

theorem writeArgs_deliveries (rs : Nat → ReadResult) (m : Nat) :
    ∀ j, writeArgs (deliveries rs j m) = [] := by
  induction m with
  | zero => intro j; rfl
  | succ m ih => intro j; simp [deliveries, writeArgs, ih]

theorem linesFrom_eq_map (rs : Nat → ReadResult) (m : Nat) :
    ∀ j, linesFrom rs j m = (List.range' j m).map (fun i => (rs i).line) := by
  induction m with
  | zero => intro j; rfl
  | succ m ih => intro j; simp [linesFrom, List.range'_succ, ih]

theorem linesFrom_zero_eq (rs : Nat → ReadResult) (k : Nat) :
    linesFrom rs 0 k = (answers rs k).map (fun r => r.line) := by
  rw [linesFrom_eq_map, answers, List.range_eq_range', List.map_map]
  rfl

theorem linesFrom_length (rs : Nat → ReadResult) (m : Nat) :
    ∀ j, (linesFrom rs j m).length = m := by
  induction m with
  | zero => intro j; rfl
  | succ m ih => intro j; simp [linesFrom, ih]

theorem filter_deliveries (rs : Nat → ReadResult) (m : Nat) :
    ∀ j, (deliveries rs j m).filter Event.isProtocolOp
      = (List.range' j m).map (fun i => Event.readLine (rs i)) := by
  induction m with
  | zero => intro j; rfl
  | succ m ih =>
    intro j
    simp [deliveries, Event.isProtocolOp, List.range'_succ, ih]

theorem filter_map_writeP (l : List String) :
    (l.map Event.writeP).filter Event.isProtocolOp = l.map Event.writeP := by
  induction l with
  | nil => rfl
  | cons s l ih => simp [Event.isProtocolOp]

theorem readLine_good_of_mem_deliveries (rs : Nat → ReadResult) (m : Nat) :
    ∀ j, (∀ i, j ≤ i → i < j + m → (rs i).good = true) →
      ∀ x, Event.readLine x ∈ deliveries rs j m → x.good = true := by
  induction m with
  | zero => intro j _ x hx; simp [deliveries] at hx
  | succ m ih =>
    intro j h x hx
    simp only [deliveries, List.mem_cons] at hx
    rcases hx with hx | hx | hx
    · cases hx
      exact h j (Nat.le_refl j) (by omega)
    · cases hx
    · exact ih (j + 1) (fun i h1 h2 => h i (by omega) (by omega)) x hx

/-! ## The loops of `execute` -/

theorem pumpInput_eq (stringInput : List String) :
    ∀ (p : TwoWayPipe) (t : List Event),
      pumpInput stringInput p t
        = ([], { p with sent := p.sent ++ stringInput }, t ++ stringInput.map Event.writeP) := by
  induction stringInput with
  | nil => intro p t; simp [pumpInput]
  | cons s rest ih =>
    intro p t
    simp [pumpInput, TwoWayPipe.writeP, ih, List.append_assoc]

theorem readLoop_eq {σ : Type} (lambda : σ → String → σ)
    (c : List String → Nat → ReadResult) (s : List String) (pe ic : Bool) (m : Nat) :
    ∀ (j fuel : Nat) (st : σ) (t0 : List Event),
      (∀ i, j ≤ i → i < j + m → (c s i).good = true) →
      (c s (j + m)).good = false →
      m < fuel →
      readLoop lambda fuel
          { child := c, sent := s, parentEnd := pe, inputClosed := ic,
            nread := j + 1, good := (c s j).good }
          (c s j).line st (t0 ++ [Event.readLine (c s j)])
        = some
          ({ child := c, sent := s, parentEnd := pe, inputClosed := ic,
             nread := j + m + 1, good := false },
           List.foldl lambda st (linesFrom (c s) j m),
           t0 ++ deliveries (c s) j m ++ [Event.readLine (c s (j + m))]) := by
  induction m with
  | zero =>
    intro j fuel st t0 _ hbad hfuel
    obtain ⟨f, rfl⟩ : ∃ f, fuel = f + 1 := ⟨fuel - 1, by omega⟩
    simp only [Nat.add_zero] at hbad
    simp [readLoop, TwoWayPipe.isGood, hbad, linesFrom, deliveries]
  | succ m ih =>
    intro j fuel st t0 hgood hbad hfuel
    obtain ⟨f, rfl⟩ : ∃ f, fuel = f + 1 := ⟨fuel - 1, by omega⟩
    have hj : (c s j).good = true := hgood j (Nat.le_refl j) (by omega)
    have hstep := ih (j + 1) f (lambda st (c s j).line)
      (t0 ++ [Event.readLine (c s j), Event.lambda (c s j).line])
      (fun i h1 h2 => hgood i (by omega) (by omega))
      (by rw [show j + 1 + m = j + (m + 1) by omega]; exact hbad)
      (by omega)
    simp only [readLoop, TwoWayPipe.isGood, hj, if_true, TwoWayPipe.readLine]
    have e1 : t0 ++ [Event.readLine (c s j)] ++ [Event.lambda (c s j).line]
          ++ [Event.readLine (c s (j + 1))]
        = t0 ++ [Event.readLine (c s j), Event.lambda (c s j).line]
          ++ [Event.readLine (c s (j + 1))] := by simp
    rw [e1, hstep]
    simp [linesFrom, deliveries, show j + 1 + m = j + (m + 1) by omega]

/-- The value of `execute` in the parent when the channel ends: the first
not-good answer is at index `k` and the fuel exceeds `k`. -/
theorem execute_eq {σ : Type} (env : Env) (fuel : Nat) (commandPath : String)
    (commandArgs stringInput : List String) (lambda : σ → String → σ) (st : σ) (k : Nat)
    (hfork : env.forkRet ≠ 0) (hk : FirstBad (env.child stringInput) k) (hfuel : k < fuel) :
    execute env fuel commandPath commandArgs stringInput lambda st
      = Result.returned
        { status := env.waitStatus env.forkRet,
          stringInput := [],
          lambdaState := List.foldl lambda st (linesFrom (env.child stringInput) 0 k),
          trace := [Event.fork env.forkRet, Event.setAsParentEnd]
            ++ stringInput.map Event.writeP ++ [Event.closeOutput]
            ++ deliveries (env.child stringInput) 0 k
            ++ [Event.readLine (env.child stringInput k), Event.waitpid env.forkRet] } := by
  have hloop := readLoop_eq lambda env.child stringInput true true k 0 fuel st
    ([Event.fork env.forkRet, Event.setAsParentEnd] ++ stringInput.map Event.writeP
      ++ [Event.closeOutput])
    (fun i _ h2 => hk.1 i (by omega)) (by simpa using hk.2) hfuel
  simp only [Nat.zero_add] at hloop
  simp only [execute, hfork, if_false, TwoWayPipe.create, TwoWayPipe.setAsParentEnd,
    pumpInput_eq, TwoWayPipe.closeOutput, TwoWayPipe.readLine, List.nil_append]
  have e1 : [Event.fork env.forkRet] ++ [Event.setAsParentEnd]
        ++ stringInput.map Event.writeP ++ [Event.closeOutput]
        ++ [Event.readLine (env.child stringInput 0)]
      = [Event.fork env.forkRet, Event.setAsParentEnd] ++ stringInput.map Event.writeP
        ++ [Event.closeOutput] ++ [Event.readLine (env.child stringInput 0)] := by simp
  rw [e1, hloop]
  simp

theorem foldl_push (l : List String) :
    ∀ acc : List String, List.foldl (fun (v : List String) s => v ++ [s]) acc l = acc ++ l := by
  induction l with
  | nil => intro acc; simp
  | cons s l ih => intro acc; simp [ih]

theorem answers_good_of_firstBad (rs : Nat → ReadResult) (k : Nat) (hk : FirstBad rs k) :
    ∀ a, a ∈ answers rs k → a.good = true := by
  intro a ha
  simp only [answers, List.mem_map, List.mem_range] at ha
  obtain ⟨i, hi, rfl⟩ := ha
  exact hk.1 i hi

theorem map_readLine_range (rs : Nat → ReadResult) (k : Nat) :
    (List.range' 0 k).map (fun i => Event.readLine (rs i))
      = (answers rs k).map Event.readLine := by
  rw [answers, List.range_eq_range', List.map_map]
  rfl

/-! ## Claims on `execute`, `checkOutput` and `async` -/

/-- C1: when the first not-good answer of the channel is the one after `k` good
ones, `execute` returns, having invoked the callback exactly `k` times, the
`i`-th time on the `i`-th answer (blank lines included); the not-good read is
followed by `waitpid` only, so the callback is never invoked after it, and all
reads before it were good. With `k = 0` the callback is never invoked. -/
theorem execute_delivers_lines_in_order {σ : Type} (env : Env) (fuel : Nat)
    (commandPath : String) (commandArgs stringInput : List String)
    (lambda : σ → String → σ) (st : σ) (k : Nat)
    (hfork : env.forkRet ≠ 0) (hk : FirstBad (env.child stringInput) k) (hfuel : k < fuel) :
    ∃ r body, execute env fuel commandPath commandArgs stringInput lambda st = Result.returned r
      ∧ lambdaArgs r.trace = (answers (env.child stringInput) k).map (fun a => a.line)
      ∧ (lambdaArgs r.trace).length = k
      ∧ r.lambdaState
          = List.foldl lambda st ((answers (env.child stringInput) k).map (fun a => a.line))
      ∧ r.trace = body ++ [Event.readLine (env.child stringInput k), Event.waitpid env.forkRet]
      ∧ (env.child stringInput k).good = false
      ∧ lambdaArgs body = lambdaArgs r.trace
      ∧ ∀ x, Event.readLine x ∈ body → x.good = true := by
  refine ⟨_, [Event.fork env.forkRet, Event.setAsParentEnd]
      ++ stringInput.map Event.writeP ++ [Event.closeOutput]
      ++ deliveries (env.child stringInput) 0 k,
    execute_eq env fuel commandPath commandArgs stringInput lambda st k hfork hk hfuel,
    ?_, ?_, ?_, rfl, hk.2, ?_, ?_⟩
  · simp [lambdaArgs_append, lambdaArgs_map_writeP, lambdaArgs_deliveries, lambdaArgs,
      linesFrom_zero_eq]
  · simp [lambdaArgs_append, lambdaArgs_map_writeP, lambdaArgs_deliveries, lambdaArgs,
      linesFrom_length]
  · simp [linesFrom_zero_eq]
  · simp [lambdaArgs_append, lambdaArgs_map_writeP, lambdaArgs_deliveries, lambdaArgs]
  · intro x hx
    simp only [List.mem_append, List.mem_cons, List.mem_map, List.mem_singleton,
      List.not_mem_nil, or_false] at hx
    rcases hx with ((((hx | hx) | ⟨_, _, hx⟩) | hx) | hx)
    · cases hx
    · cases hx
    · cases hx
    · cases hx
    · exact readLine_good_of_mem_deliveries (env.child stringInput) k 0
        (fun i _ h2 => hk.1 i (by omega)) x hx

theorem execute_delivers_lines_in_order_witness :
    (spawnOk ["a", "", "b"]).forkRet ≠ 0
    ∧ FirstBad ((spawnOk ["a", "", "b"]).child ["x"]) 3
    ∧ 3 < 4
    ∧ ∃ r body, execute (spawnOk ["a", "", "b"]) 4 "/bin/cat" [] ["x"] countCalls 0
          = Result.returned r
      ∧ lambdaArgs r.trace
          = (answers ((spawnOk ["a", "", "b"]).child ["x"]) 3).map (fun a => a.line)
      ∧ (lambdaArgs r.trace).length = 3
      ∧ r.lambdaState = List.foldl countCalls 0
          ((answers ((spawnOk ["a", "", "b"]).child ["x"]) 3).map (fun a => a.line))
      ∧ r.trace = body ++ [Event.readLine ((spawnOk ["a", "", "b"]).child ["x"] 3),
          Event.waitpid (spawnOk ["a", "", "b"]).forkRet]
      ∧ ((spawnOk ["a", "", "b"]).child ["x"] 3).good = false
      ∧ lambdaArgs body = lambdaArgs r.trace
      ∧ ∀ x, Event.readLine x ∈ body → x.good = true :=
  ⟨by decide, by decide, by decide,
    execute_delivers_lines_in_order (spawnOk ["a", "", "b"]) 4 "/bin/cat" [] ["x"]
      countCalls 0 3 (by decide) (by decide) (by decide)⟩

/-- C2: `execute` passes to `writeP` exactly the strings of the caller's list,
in order, each once and unmodified, and leaves the caller's list empty; a second
call of `execute` on the list so left writes nothing. -/
theorem execute_drains_input {σ : Type} (env : Env) (fuel : Nat)
    (commandPath : String) (commandArgs stringInput : List String)
    (lambda : σ → String → σ) (st : σ) (k : Nat)
    (hfork : env.forkRet ≠ 0) (hk : FirstBad (env.child stringInput) k) (hfuel : k < fuel) :
    ∃ r, execute env fuel commandPath commandArgs stringInput lambda st = Result.returned r
      ∧ writeArgs r.trace = stringInput
      ∧ r.stringInput = []
      ∧ ∀ (τ : Type) (env2 : Env) (fuel2 : Nat) (lambda2 : τ → String → τ) (st2 : τ)
          (k2 : Nat), env2.forkRet ≠ 0 → FirstBad (env2.child []) k2 → k2 < fuel2 →
          ∃ r2, execute env2 fuel2 commandPath commandArgs r.stringInput lambda2 st2
              = Result.returned r2
            ∧ writeArgs r2.trace = [] := by
  refine ⟨_, execute_eq env fuel commandPath commandArgs stringInput lambda st k hfork hk hfuel,
    ?_, rfl, ?_⟩
  · simp [writeArgs_append, writeArgs_map_writeP, writeArgs_deliveries, writeArgs]
  · intro τ env2 fuel2 lambda2 st2 k2 hfork2 hk2 hfuel2
    refine ⟨_, execute_eq env2 fuel2 commandPath commandArgs [] lambda2 st2 k2 hfork2 hk2
      hfuel2, ?_⟩
    simp [writeArgs_append, writeArgs_deliveries, writeArgs]

theorem execute_drains_input_witness :
    (spawnOk ["a"]).forkRet ≠ 0
    ∧ FirstBad ((spawnOk ["a"]).child ["x", "", "y\n"]) 1
    ∧ 1 < 2
    ∧ ∃ r, execute (spawnOk ["a"]) 2 "/bin/cat" ["-"] ["x", "", "y\n"] countCalls 0
          = Result.returned r
      ∧ writeArgs r.trace = ["x", "", "y\n"]
      ∧ r.stringInput = []
      ∧ ∀ (τ : Type) (env2 : Env) (fuel2 : Nat) (lambda2 : τ → String → τ) (st2 : τ)
          (k2 : Nat), env2.forkRet ≠ 0 → FirstBad (env2.child []) k2 → k2 < fuel2 →
          ∃ r2, execute env2 fuel2 "/bin/cat" ["-"] r.stringInput lambda2 st2
              = Result.returned r2
            ∧ writeArgs r2.trace = [] :=
  ⟨by decide, by decide, by decide,
    execute_drains_input (spawnOk ["a"]) 2 "/bin/cat" ["-"] ["x", "", "y\n"] countCalls 0 1
      (by decide) (by decide) (by decide)⟩

/-- C9: the channel operations and the reap of a returned `execute` are, in
order: one `writeP` per input string, one `closeOutput`, the `k` good reads and
the not-good read that ends the loop (so at least one `readLine`), and one
`waitpid`, which is the last event of the whole trace. -/
theorem execute_protocol_order {σ : Type} (env : Env) (fuel : Nat)
    (commandPath : String) (commandArgs stringInput : List String)
    (lambda : σ → String → σ) (st : σ) (k : Nat)
    (hfork : env.forkRet ≠ 0) (hk : FirstBad (env.child stringInput) k) (hfuel : k < fuel) :
    ∃ r, execute env fuel commandPath commandArgs stringInput lambda st = Result.returned r
      ∧ r.trace.filter Event.isProtocolOp
          = stringInput.map Event.writeP ++ [Event.closeOutput]
            ++ (answers (env.child stringInput) k).map Event.readLine
            ++ [Event.readLine (env.child stringInput k), Event.waitpid env.forkRet]
      ∧ (∀ a, a ∈ answers (env.child stringInput) k → a.good = true)
      ∧ (env.child stringInput k).good = false
      ∧ r.trace.getLast? = some (Event.waitpid env.forkRet) := by
  refine ⟨_, execute_eq env fuel commandPath commandArgs stringInput lambda st k hfork hk hfuel,
    ?_, answers_good_of_firstBad _ k hk, hk.2, ?_⟩
  · simp only [List.filter_append, filter_map_writeP, filter_deliveries, map_readLine_range]
    simp [Event.isProtocolOp]
  · show (([Event.fork env.forkRet, Event.setAsParentEnd]
        ++ stringInput.map Event.writeP ++ [Event.closeOutput]
        ++ deliveries (env.child stringInput) 0 k)
        ++ [Event.readLine (env.child stringInput k), Event.waitpid env.forkRet]).getLast?
      = some (Event.waitpid env.forkRet)
    rw [show [Event.readLine (env.child stringInput k), Event.waitpid env.forkRet]
        = [Event.readLine (env.child stringInput k)] ++ [Event.waitpid env.forkRet] from rfl,
      ← List.append_assoc, List.getLast?_concat]

theorem execute_protocol_order_witness :
    (spawnOk ["a", "b"]).forkRet ≠ 0
    ∧ FirstBad ((spawnOk ["a", "b"]).child ["x", "y"]) 2
    ∧ 2 < 5
    ∧ ∃ r, execute (spawnOk ["a", "b"]) 5 "/bin/cat" [] ["x", "y"] countCalls 0
          = Result.returned r
      ∧ r.trace.filter Event.isProtocolOp
          = ["x", "y"].map Event.writeP ++ [Event.closeOutput]
            ++ (answers ((spawnOk ["a", "b"]).child ["x", "y"]) 2).map Event.readLine
            ++ [Event.readLine ((spawnOk ["a", "b"]).child ["x", "y"] 2),
                Event.waitpid (spawnOk ["a", "b"]).forkRet]
      ∧ (∀ a, a ∈ answers ((spawnOk ["a", "b"]).child ["x", "y"]) 2 → a.good = true)
      ∧ ((spawnOk ["a", "b"]).child ["x", "y"] 2).good = false
      ∧ r.trace.getLast? = some (Event.waitpid (spawnOk ["a", "b"]).forkRet) :=
  ⟨by decide, by decide, by decide,
    execute_protocol_order (spawnOk ["a", "b"]) 5 "/bin/cat" [] ["x", "y"] countCalls 0 2
      (by decide) (by decide) (by decide)⟩

/-- C6: `checkOutput` returns whenever `execute` does; its vector is, element
for element and in order, the sequence of strings `execute` passes to its
callback on the same arguments (whatever that callback is), and its `status`
is the value `execute` returns, the raw content left by `waitpid`. -/
theorem checkOutput_collects_execute {σ : Type} (env : Env) (fuel : Nat)
    (commandPath : String) (commandArgs stringInput : List String)
    (lambda : σ → String → σ) (st : σ) (k : Nat)
    (hfork : env.forkRet ≠ 0) (hk : FirstBad (env.child stringInput) k) (hfuel : k < fuel) :
    ∃ r c, execute env fuel commandPath commandArgs stringInput lambda st = Result.returned r
      ∧ checkOutput env fuel commandPath commandArgs stringInput = Result.returned c
      ∧ c.retVec = lambdaArgs r.trace
      ∧ c.status = r.status
      ∧ c.status = env.waitStatus env.forkRet
      ∧ c.stringInput = r.stringInput := by
  have hc : checkOutput env fuel commandPath commandArgs stringInput
      = Result.returned
        { retVec := linesFrom (env.child stringInput) 0 k,
          status := env.waitStatus env.forkRet,
          stringInput := [],
          trace := [Event.fork env.forkRet, Event.setAsParentEnd]
            ++ stringInput.map Event.writeP ++ [Event.closeOutput]
            ++ deliveries (env.child stringInput) 0 k
            ++ [Event.readLine (env.child stringInput k), Event.waitpid env.forkRet] } := by
    simp only [checkOutput]
    rw [execute_eq env fuel commandPath commandArgs stringInput _ _ k hfork hk hfuel]
    simp [foldl_push]
  refine ⟨_, _,
    execute_eq env fuel commandPath commandArgs stringInput lambda st k hfork hk hfuel,
    hc, ?_, rfl, rfl, rfl⟩
  simp [lambdaArgs_append, lambdaArgs_map_writeP, lambdaArgs_deliveries, lambdaArgs]

theorem checkOutput_collects_execute_witness :
    (spawnOk ["a", "", "b"]).forkRet ≠ 0
    ∧ FirstBad ((spawnOk ["a", "", "b"]).child ["x"]) 3
    ∧ 3 < 9
    ∧ ∃ r c, execute (spawnOk ["a", "", "b"]) 9 "/bin/cat" [] ["x"] countCalls 0
          = Result.returned r
      ∧ checkOutput (spawnOk ["a", "", "b"]) 9 "/bin/cat" [] ["x"] = Result.returned c
      ∧ c.retVec = lambdaArgs r.trace
      ∧ c.status = r.status
      ∧ c.status = (spawnOk ["a", "", "b"]).waitStatus (spawnOk ["a", "", "b"]).forkRet
      ∧ c.stringInput = r.stringInput :=
  ⟨by decide, by decide, by decide,
    checkOutput_collects_execute (spawnOk ["a", "", "b"]) 9 "/bin/cat" [] ["x"] countCalls 0 3
      (by decide) (by decide) (by decide)⟩

/-! ## Fork failure -/

theorem ctor_eq (env : Env) (this : Nat) (commandPath : String)
    (commandArgs stringInput : List String) (w : World) (hfork : env.forkRet ≠ 0) :
    ProcessStream.ctor env this commandPath commandArgs stringInput w
      = Result.returned
        ({ heap := Function.update w.heap this
              { statusCode := (w.heap this).statusCode, childPid := env.forkRet,
                p := { child := env.child, sent := stringInput, parentEnd := true,
                       inputClosed := true, nread := 0, good := true } },
           trace := w.trace ++ [Event.fork env.forkRet, Event.setAsParentEnd]
             ++ stringInput.map Event.writeP ++ [Event.closeOutput] },
         []) := by
  simp [ProcessStream.ctor, hfork, TwoWayPipe.create, TwoWayPipe.setAsParentEnd,
    pumpInput_eq, TwoWayPipe.closeOutput, List.append_assoc]

/-- C5, as stated, fails: with `fork()` returning `-1`, `execute` returns
normally after `writeP`, `closeOutput`, `readLine` and `waitpid(-1, ...)`, and
the constructor of `ProcessStream` returns normally after `writeP` and
`closeOutput`. -/
theorem fork_failure_continues_as_parent :
    (∃ r, execute spawnFails 1 "/bin/cat" [] ["x"] countCalls 0 = Result.returned r
      ∧ r.status = 77
      ∧ r.trace = [Event.fork (-1), Event.setAsParentEnd, Event.writeP "x",
          Event.closeOutput, Event.readLine { line := "", good := false },
          Event.waitpid (-1)])
    ∧ (∃ w l, ProcessStream.ctor spawnFails 1 "/bin/cat" [] ["x"] idleWorld
          = Result.returned (w, l)
      ∧ w.trace = [Event.fork (-1), Event.setAsParentEnd, Event.writeP "x",
          Event.closeOutput]) :=
  ⟨⟨_, rfl, rfl, rfl⟩, ⟨_, _, rfl, rfl⟩⟩

/-- C5, amended: when `fork()` returns `-1` nothing is reported; `execute` and
the constructor of `ProcessStream` take the parent path as after a successful
fork. `execute` returns the content `waitpid(-1, ...)` leaves in `status`,
after one `writeP` per input string, `closeOutput`, the reads up to the first
not-good one and `waitpid(-1, ...)`; the constructor returns after one `writeP`
per input string and `closeOutput`, storing `-1` as `childPid`. -/
theorem fork_failure_takes_parent_path {σ : Type} (env : Env) (fuel : Nat)
    (commandPath : String) (commandArgs stringInput : List String)
    (lambda : σ → String → σ) (st : σ) (k : Nat) (this : Nat) (w0 : World)
    (hfork : env.forkRet = -1) (hk : FirstBad (env.child stringInput) k) (hfuel : k < fuel) :
    (∃ r, execute env fuel commandPath commandArgs stringInput lambda st = Result.returned r
      ∧ r.status = env.waitStatus (-1)
      ∧ r.trace = [Event.fork (-1), Event.setAsParentEnd]
          ++ stringInput.map Event.writeP ++ [Event.closeOutput]
          ++ deliveries (env.child stringInput) 0 k
          ++ [Event.readLine (env.child stringInput k), Event.waitpid (-1)])
    ∧ (∃ w l, ProcessStream.ctor env this commandPath commandArgs stringInput w0
          = Result.returned (w, l)
      ∧ (w.heap this).childPid = -1
      ∧ w.trace = w0.trace ++ [Event.fork (-1), Event.setAsParentEnd]
          ++ stringInput.map Event.writeP ++ [Event.closeOutput]) := by
  have hne : env.forkRet ≠ 0 := by rw [hfork]; decide
  refine ⟨⟨_, execute_eq env fuel commandPath commandArgs stringInput lambda st k hne hk hfuel,
      ?_, ?_⟩,
    ⟨_, _, ctor_eq env this commandPath commandArgs stringInput w0 hne, ?_, ?_⟩⟩
  · simp [hfork]
  · simp [hfork]
  · simp [hfork]
  · simp [hfork]

theorem fork_failure_takes_parent_path_witness :
    spawnFails.forkRet = -1
    ∧ FirstBad (spawnFails.child ["x", "y"]) 0
    ∧ 0 < 1
    ∧ (∃ r, execute spawnFails 1 "/bin/cat" [] ["x", "y"] countCalls 0 = Result.returned r
        ∧ r.status = spawnFails.waitStatus (-1)
        ∧ r.trace = [Event.fork (-1), Event.setAsParentEnd]
            ++ ["x", "y"].map Event.writeP ++ [Event.closeOutput]
            ++ deliveries (spawnFails.child ["x", "y"]) 0 0
            ++ [Event.readLine (spawnFails.child ["x", "y"] 0), Event.waitpid (-1)])
    ∧ (∃ w l, ProcessStream.ctor spawnFails 3 "/bin/cat" [] ["x", "y"] idleWorld
          = Result.returned (w, l)
        ∧ (w.heap 3).childPid = -1
        ∧ w.trace = idleWorld.trace ++ [Event.fork (-1), Event.setAsParentEnd]
            ++ ["x", "y"].map Event.writeP ++ [Event.closeOutput]) :=
  ⟨by decide, by decide, by decide,
    fork_failure_takes_parent_path spawnFails 1 "/bin/cat" [] ["x", "y"] countCalls 0 0 3
      idleWorld (by decide) (by decide) (by decide)⟩

/-! ## `async` -/

/-- C8: the future returned by `async` yields the value `execute` returns on
the content of the caller's list with the same command, arguments and callback
under the same behaviour of the operating system and child, and the worker
drives the callback as that `execute` does; the list that is emptied is the
worker's own copy, so in the memory the worker leaves the caller's list holds
what it held before, whereas `execute` called on the caller's list leaves it
empty. -/
theorem async_yields_execute_result {σ : Type} (env : Env) (fuel : Nat)
    (commandPath : String) (commandArgs : List String) (callerList : Nat)
    (lambda : σ → String → σ) (st : σ) (m : ListStore) (k : Nat)
    (hfork : env.forkRet ≠ 0) (hk : FirstBad (env.child (m.obj callerList)) k)
    (hfuel : k < fuel) (hcaller : callerList < m.next) :
    ∃ r ma me,
      execute env fuel commandPath commandArgs (m.obj callerList) lambda st = Result.returned r
      ∧ (async env fuel commandPath commandArgs callerList lambda st m).future.get
          = Result.returned r.status
      ∧ (async env fuel commandPath commandArgs callerList lambda st m).worker
          = Result.returned (r, ma)
      ∧ ma.obj callerList = m.obj callerList
      ∧ executeRef env fuel commandPath commandArgs callerList lambda st m
          = Result.returned (r, me)
      ∧ me.obj callerList = [] := by
  obtain ⟨r, hr, hrl⟩ : ∃ r,
      execute env fuel commandPath commandArgs (m.obj callerList) lambda st = Result.returned r
      ∧ r.stringInput = [] :=
    ⟨_, execute_eq env fuel commandPath commandArgs (m.obj callerList) lambda st k
      hfork hk hfuel, rfl⟩
  have h1 : callerList ≠ m.next := by omega
  have h2 : callerList ≠ m.next + 1 := by omega
  have hfut : (async env fuel commandPath commandArgs callerList lambda st m).future.get
      = Result.returned r.status := by
    simp [async, std_async, executeRef, ListStore.copy, hr, Result.map]
  have hw : ∃ ma, (async env fuel commandPath commandArgs callerList lambda st m).worker
        = Result.returned (r, ma) ∧ ma.obj callerList = m.obj callerList := by
    simp only [async, std_async, executeRef, ListStore.copy, Function.update_same, hr,
      Result.map]
    refine ⟨_, rfl, ?_⟩
    have h3 : callerList ≠ m.next + 1 + 1 := by omega
    simp [Function.update_noteq h1, Function.update_noteq h2, Function.update_noteq h3]
  have hx : ∃ me, executeRef env fuel commandPath commandArgs callerList lambda st m
        = Result.returned (r, me) ∧ me.obj callerList = [] := by
    simp only [executeRef, hr, Result.map]
    exact ⟨_, rfl, by simp [hrl]⟩
  obtain ⟨ma, hma, hma2⟩ := hw
  obtain ⟨me, hme, hme2⟩ := hx
  exact ⟨r, ma, me, hr, hfut, hma, hma2, hme, hme2⟩

theorem async_yields_execute_result_witness :
    (spawnOk ["a"]).forkRet ≠ 0
    ∧ FirstBad ((spawnOk ["a"]).child (callerMemory.obj 0)) 1
    ∧ 1 < 3
    ∧ 0 < callerMemory.next
    ∧ ∃ r ma me,
      execute (spawnOk ["a"]) 3 "/bin/cat" [] (callerMemory.obj 0) countCalls 0
          = Result.returned r
      ∧ (async (spawnOk ["a"]) 3 "/bin/cat" [] 0 countCalls 0 callerMemory).future.get
          = Result.returned r.status
      ∧ (async (spawnOk ["a"]) 3 "/bin/cat" [] 0 countCalls 0 callerMemory).worker
          = Result.returned (r, ma)
      ∧ ma.obj 0 = callerMemory.obj 0
      ∧ executeRef (spawnOk ["a"]) 3 "/bin/cat" [] 0 countCalls 0 callerMemory
          = Result.returned (r, me)
      ∧ me.obj 0 = [] :=
  ⟨by decide, by decide, by decide, by decide,
    async_yields_execute_result (spawnOk ["a"]) 3 "/bin/cat" [] 0 countCalls 0 callerMemory 1
      (by decide) (by decide) (by decide) (by decide)⟩

/-! ## The pull iterator -/

theorem reads_ctor (env : Env) (this : Nat) (stringInput : List String) (w : World)
    (sc : Int) (pid : Int) (t : List Event) :
    Reads
      { heap := Function.update w.heap this
          { statusCode := sc, childPid := pid,
            p := { child := env.child, sent := stringInput, parentEnd := true,
                   inputClosed := true, nread := 0, good := true } },
        trace := t }
      this env.child stringInput 0 := by
  simp [Reads]

theorem inc_eq (it : ProcessStream.iterator) (w : World) (a : Nat)
    (c : List String → Nat → ReadResult) (s : List String) (n : Nat)
    (hps : it.ps = a) (hr : Reads w a c s n) :
    (it.inc w).1
        = { ps := a, isFinished := it.isFinished || (c s n).line.isEmpty,
            cline := (c s n).line }
      ∧ Reads (it.inc w).2 a c s (n + 1) := by
  obtain ⟨h1, h2, h3⟩ := hr
  subst hps
  simp only [ProcessStream.iterator.inc, TwoWayPipe.readLine, h1, h2, h3]
  split
  · rename_i h
    simp [h, Reads, h1, h2, h3]
  · rename_i h
    simp [h, Reads, h1, h2, h3]

theorem inc_finished (it : ProcessStream.iterator) (w : World)
    (h : it.isFinished = true) : (it.inc w).1.isFinished = true := by
  simp only [ProcessStream.iterator.inc, TwoWayPipe.readLine]
  split <;> simp [h]

theorem inc_ps (it : ProcessStream.iterator) (w : World) : (it.inc w).1.ps = it.ps := by
  simp only [ProcessStream.iterator.inc, TwoWayPipe.readLine]
  split <;> simp

theorem advance_finished (j : Nat) :
    ∀ (it : ProcessStream.iterator) (w : World), it.isFinished = true →
      (ProcessStream.iterator.advance j it w).1.isFinished = true := by
  induction j with
  | zero => intro it w h; simpa [ProcessStream.iterator.advance] using h
  | succ j ih =>
    intro it w h
    simp only [ProcessStream.iterator.advance]
    exact ih _ _ (inc_finished it w h)

theorem advance_ps (j : Nat) :
    ∀ (it : ProcessStream.iterator) (w : World),
      (ProcessStream.iterator.advance j it w).1.ps = it.ps := by
  induction j with
  | zero => intro it w; simp [ProcessStream.iterator.advance]
  | succ j ih =>
    intro it w
    simp only [ProcessStream.iterator.advance]
    rw [ih, inc_ps]

theorem advance_reaches_empty (a : Nat) (c : List String → Nat → ReadResult)
    (s : List String) (d : Nat) :
    ∀ (j n : Nat) (it : ProcessStream.iterator) (w : World),
      it.ps = a → Reads w a c s n → (c s (n + d)).line = "" → d < j →
      (ProcessStream.iterator.advance j it w).1.isFinished = true := by
  induction d with
  | zero =>
    intro j n it w hps hr hempty hj
    obtain ⟨i, rfl⟩ : ∃ i, j = i + 1 := ⟨j - 1, by omega⟩
    simp only [ProcessStream.iterator.advance]
    apply advance_finished
    rw [(inc_eq it w a c s n hps hr).1]
    simp only [Nat.add_zero] at hempty
    simp [hempty, String.isEmpty_iff]
  | succ d ih =>
    intro j n it w hps hr hempty hj
    obtain ⟨i, rfl⟩ : ∃ i, j = i + 1 := ⟨j - 1, by omega⟩
    simp only [ProcessStream.iterator.advance]
    have hinc := inc_eq it w a c s n hps hr
    refine ih i (n + 1) _ _ ?_ hinc.2 ?_ (by omega)
    · rw [inc_ps]; exact hps
    · rw [show n + 1 + d = n + (d + 1) by omega]; exact hempty

theorem eq_end_of_finished (it : ProcessStream.iterator) (a : Nat)
    (hps : it.ps = a) (h : it.isFinished = true) :
    it.eq (ProcessStream.end_ a) = true := by
  simp [ProcessStream.iterator.eq, ProcessStream.end_, ProcessStream.iterator.ctorEnd, hps, h]

theorem collectLoop_finished (this : Nat) (fuel : Nat) (it : ProcessStream.iterator)
    (w : World) (out : List String) (hps : it.ps = this) (h : it.isFinished = true) :
    collectLoop this (fuel + 1) it w out = some (out, w) := by
  simp [collectLoop, ProcessStream.iterator.ne, eq_end_of_finished it this hps h]

theorem collectLoop_terminates (this : Nat) (c : List String → Nat → ReadResult)
    (s : List String) (d : Nat) :
    ∀ (fuel n : Nat) (it : ProcessStream.iterator) (w : World) (out : List String),
      it.ps = this → Reads w this c s n → (c s (n + d)).line = "" → d + 1 < fuel →
      ∃ res, collectLoop this fuel it w out = some res
        ∧ res.1.length ≤ out.length + d + 1 := by
  induction d with
  | zero =>
    intro fuel n it w out hps hr hempty hfuel
    obtain ⟨f, rfl⟩ : ∃ f, fuel = f + 2 := ⟨fuel - 2, by omega⟩
    by_cases hfin : it.isFinished = true
    · exact ⟨_, collectLoop_finished this (f + 1) it w out hps hfin, by simp⟩
    · have hinc := inc_eq it w this c s n hps hr
      simp only [Nat.add_zero] at hempty
      have hfin1 : (it.inc w).1.isFinished = true := by
        rw [hinc.1]; simp [hempty, String.isEmpty_iff]
      have hps1 : (it.inc w).1.ps = this := by rw [inc_ps]; exact hps
      have hne : it.ne (ProcessStream.end_ this) = true := by
        simp [ProcessStream.iterator.ne, ProcessStream.iterator.eq, ProcessStream.end_,
          ProcessStream.iterator.ctorEnd, hps, hfin]
      refine ⟨(out ++ [it.deref], (it.inc w).2), ?_, by simp⟩
      rw [collectLoop]
      simp only [hne, if_true]
      exact collectLoop_finished this f _ _ _ hps1 hfin1
  | succ d ih =>
    intro fuel n it w out hps hr hempty hfuel
    obtain ⟨f, rfl⟩ : ∃ f, fuel = f + 1 := ⟨fuel - 1, by omega⟩
    by_cases hfin : it.isFinished = true
    · exact ⟨_, collectLoop_finished this f it w out hps hfin, by simp; omega⟩
    · have hinc := inc_eq it w this c s n hps hr
      have hps1 : (it.inc w).1.ps = this := by rw [inc_ps]; exact hps
      have hne : it.ne (ProcessStream.end_ this) = true := by
        simp [ProcessStream.iterator.ne, ProcessStream.iterator.eq, ProcessStream.end_,
          ProcessStream.iterator.ctorEnd, hps, hfin]
      obtain ⟨res, hres, hlen⟩ := ih f (n + 1) (it.inc w).1 (it.inc w).2 (out ++ [it.deref])
        hps1 hinc.2 (by rw [show n + 1 + d = n + (d + 1) by omega]; exact hempty) (by omega)
      refine ⟨res, ?_, by simp at hlen; omega⟩
      rw [collectLoop]
      simp only [hne, if_true]
      exact hres

theorem begin_eq (this : Nat) (w : World) (c : List String → Nat → ReadResult)
    (s : List String) (hr : Reads w this c s 0) :
    (ProcessStream.begin this w).1
        = { ps := this, isFinished := (c s 0).line.isEmpty, cline := (c s 0).line }
      ∧ Reads (ProcessStream.begin this w).2 this c s 1 := by
  have h := inc_eq { ps := this, isFinished := false, cline := "" } w this c s 0 rfl hr
  simpa [ProcessStream.begin, ProcessStream.iterator.ctor] using h

theorem isEmpty_eq_false_of_ne (s : String) (h : s ≠ "") : s.isEmpty = false := by
  cases hs : s.isEmpty with
  | false => rfl
  | true => exact absurd ((String.isEmpty_iff s).1 hs) h

theorem ctor_begin (env : Env) (this : Nat) (commandPath : String)
    (commandArgs stringInput : List String) (w0 : World) (hfork : env.forkRet ≠ 0) :
    ∃ w l, ProcessStream.ctor env this commandPath commandArgs stringInput w0
        = Result.returned (w, l)
      ∧ (ProcessStream.begin this w).1
          = { ps := this, isFinished := (env.child stringInput 0).line.isEmpty,
              cline := (env.child stringInput 0).line }
      ∧ Reads (ProcessStream.begin this w).2 this env.child stringInput 1 :=
  ⟨_, _, ctor_eq env this commandPath commandArgs stringInput w0 hfork,
    begin_eq this _ env.child stringInput
      (reads_ctor env this stringInput w0 (w0.heap this).statusCode env.forkRet
        (w0.trace ++ [Event.fork env.forkRet, Event.setAsParentEnd]
          ++ stringInput.map Event.writeP ++ [Event.closeOutput]))⟩

theorem collectLoop_eq (this : Nat) (c : List String → Nat → ReadResult)
    (s : List String) (m : Nat) :
    ∀ (fuel n : Nat) (w : World) (out : List String),
      Reads w this c s (n + 1) →
      (∀ i, n ≤ i → i < n + m → (c s i).line ≠ "") → (c s (n + m)).line = "" → m < fuel →
      ∃ w1, collectLoop this fuel
          { ps := this, isFinished := (c s n).line.isEmpty, cline := (c s n).line } w out
        = some (out ++ linesFrom (c s) n m, w1) := by
  induction m with
  | zero =>
    intro fuel n w out _ _ hempty hfuel
    obtain ⟨f, rfl⟩ : ∃ f, fuel = f + 1 := ⟨fuel - 1, by omega⟩
    simp only [Nat.add_zero] at hempty
    refine ⟨w, ?_⟩
    rw [collectLoop_finished this f _ w out rfl (by simp [hempty, String.isEmpty_iff])]
    simp [linesFrom]
  | succ m ih =>
    intro fuel n w out hr hfull hempty hfuel
    obtain ⟨f, rfl⟩ : ∃ f, fuel = f + 1 := ⟨fuel - 1, by omega⟩
    have hn : (c s n).line.isEmpty = false :=
      isEmpty_eq_false_of_ne _ (hfull n (Nat.le_refl n) (by omega))
    have hinc := inc_eq
      { ps := this, isFinished := (c s n).line.isEmpty, cline := (c s n).line } w this c s
      (n + 1) rfl hr
    obtain ⟨w1, hw1⟩ := ih f (n + 1)
      (ProcessStream.iterator.inc
        { ps := this, isFinished := (c s n).line.isEmpty, cline := (c s n).line } w).2
      (out ++ [(c s n).line]) hinc.2
      (fun i h1 h2 => hfull i (by omega) (by omega))
      (by rw [show n + 1 + m = n + (m + 1) by omega]; exact hempty) (by omega)
    refine ⟨w1, ?_⟩
    rw [collectLoop]
    have hne : ProcessStream.iterator.ne
        { ps := this, isFinished := (c s n).line.isEmpty, cline := (c s n).line }
        (ProcessStream.end_ this) = true := by
      simp [ProcessStream.iterator.ne, ProcessStream.iterator.eq, ProcessStream.end_,
        ProcessStream.iterator.ctorEnd, hn]
    simp only [hne, if_true, ProcessStream.iterator.deref]
    have e : (ProcessStream.iterator.inc
        { ps := this, isFinished := (c s n).line.isEmpty, cline := (c s n).line } w)
        = ({ ps := this, isFinished := (c s (n + 1)).line.isEmpty,
             cline := (c s (n + 1)).line },
           (ProcessStream.iterator.inc
             { ps := this, isFinished := (c s n).line.isEmpty, cline := (c s n).line } w).2) := by
      apply Prod.ext
      · rw [hinc.1]; simp [hn]
      · rfl
    rw [e]
    simp only []
    rw [hw1]
    simp [linesFrom]

/-- Where the two consumers agree: if the `k` good answers of the child are
non-empty lines and the first not-good answer is the empty result, iterating a
`ProcessStream` from `begin()` to `end()` yields the lines `execute` hands to
its callback. -/
theorem streamLines_eq_executeLines (env : Env) (this : Nat) (fuel : Nat)
    (commandPath : String) (commandArgs stringInput : List String) (w0 : World) (k : Nat)
    (hfork : env.forkRet ≠ 0) (hk : FirstBad (env.child stringInput) k)
    (hfull : ∀ i, i < k → (env.child stringInput i).line ≠ "")
    (hempty : (env.child stringInput k).line = "") (hfuel : k < fuel) :
    streamLines env this fuel commandPath commandArgs stringInput w0
        = some (linesFrom (env.child stringInput) 0 k)
      ∧ executeLines env fuel commandPath commandArgs stringInput
        = some (linesFrom (env.child stringInput) 0 k) := by
  constructor
  · obtain ⟨w, l, hctor, hb, hr⟩ :=
      ctor_begin env this commandPath commandArgs stringInput w0 hfork
    obtain ⟨w1, hw1⟩ := collectLoop_eq this env.child stringInput k fuel 0
      (ProcessStream.begin this w).2 [] hr (fun i _ h2 => hfull i (by omega))
      (by simpa using hempty) hfuel
    have hcollect : collect this fuel w = some (linesFrom (env.child stringInput) 0 k, w1) := by
      rw [collect]
      have e : ProcessStream.begin this w
          = ({ ps := this, isFinished := (env.child stringInput 0).line.isEmpty,
               cline := (env.child stringInput 0).line },
             (ProcessStream.begin this w).2) := Prod.ext hb rfl
      rw [e]
      simpa using hw1
    simp [streamLines, hctor, hcollect]
  · simp only [executeLines]
    rw [execute_eq env fuel commandPath commandArgs stringInput _ _ k hfork hk hfuel]
    simp [lambdaArgs_append, lambdaArgs_map_writeP, lambdaArgs_deliveries, lambdaArgs]

/-! ## Claims on `ProcessStream::iterator` -/

/-- C3, as stated, fails: two cursors with `isFinished` set that wrap
different streams are not equal; in particular the cursor `begin()` returns
over a stream whose child printed nothing is exhausted and differs from `end()`
of another stream. -/
theorem exhausted_cursors_of_distinct_streams_differ :
    (ProcessStream.end_ 1).isFinished = true
    ∧ (ProcessStream.end_ 2).isFinished = true
    ∧ (ProcessStream.end_ 1).eq (ProcessStream.end_ 2) = false
    ∧ (ProcessStream.begin 1 idleWorld).1.isFinished = true
    ∧ (ProcessStream.begin 1 idleWorld).1.eq (ProcessStream.end_ 2) = false := by
  decide

/-- C3, amended: `a == b` holds exactly when `a` and `b` wrap the same stream
and their `isFinished` flags agree (the current line is not compared); so two
exhausted cursors are equal exactly when they are over the same stream. -/
theorem iterator_eq_iff (a b : ProcessStream.iterator) :
    a.eq b = true ↔ a.ps = b.ps ∧ a.isFinished = b.isFinished := by
  simp only [ProcessStream.iterator.eq, Bool.and_eq_true, beq_iff_eq]
  constructor
  · rintro ⟨h1, h2⟩; exact ⟨h1.symm, h2⟩
  · rintro ⟨h1, h2⟩; exact ⟨h1.symm, h2⟩

/-- C4 fails on the code: for a child printing `a`, a blank line and `b`,
`execute` hands all three lines to its callback, while the cursor of a
`ProcessStream` equals `end()` after the first line. -/
theorem iterator_stops_at_blank_line :
    executeLines (spawnOk ["a", "", "b"]) 9 "/bin/cat" [] ["x"] = some ["a", "", "b"]
    ∧ streamLines (spawnOk ["a", "", "b"]) 1 9 "/bin/cat" [] ["x"] idleWorld = some ["a"] := by
  decide

/-- C7: after construction in the parent, `begin()` is positioned on the first
answer of the child: if that answer is a non-empty line, `*begin()` is that line
and `begin() != end()`; if it is the empty result, `begin() == end()`. -/
theorem begin_positioned_on_first_line (env : Env) (this : Nat) (commandPath : String)
    (commandArgs stringInput : List String) (w0 : World) (hfork : env.forkRet ≠ 0) :
    ∃ w l, ProcessStream.ctor env this commandPath commandArgs stringInput w0
        = Result.returned (w, l)
      ∧ ((env.child stringInput 0).line ≠ "" →
          (ProcessStream.begin this w).1.deref = (env.child stringInput 0).line
          ∧ (ProcessStream.begin this w).1.ne (ProcessStream.end_ this) = true)
      ∧ ((env.child stringInput 0).line = "" →
          (ProcessStream.begin this w).1.eq (ProcessStream.end_ this) = true) := by
  obtain ⟨w, l, hctor, hb, _⟩ :=
    ctor_begin env this commandPath commandArgs stringInput w0 hfork
  refine ⟨w, l, hctor, ?_, ?_⟩
  · intro hne
    rw [hb]
    simp [ProcessStream.iterator.deref, ProcessStream.iterator.ne, ProcessStream.iterator.eq,
      ProcessStream.end_, ProcessStream.iterator.ctorEnd, isEmpty_eq_false_of_ne _ hne]
  · intro he
    rw [hb]
    simp [ProcessStream.iterator.eq, ProcessStream.end_, ProcessStream.iterator.ctorEnd,
      String.isEmpty_iff, he]

theorem begin_positioned_on_first_line_witness :
    (spawnOk ["a", "b"]).forkRet ≠ 0
    ∧ ∃ w l, ProcessStream.ctor (spawnOk ["a", "b"]) 1 "/bin/cat" [] ["x"] idleWorld
        = Result.returned (w, l)
      ∧ (((spawnOk ["a", "b"]).child ["x"] 0).line ≠ "" →
          (ProcessStream.begin 1 w).1.deref = ((spawnOk ["a", "b"]).child ["x"] 0).line
          ∧ (ProcessStream.begin 1 w).1.ne (ProcessStream.end_ 1) = true)
      ∧ (((spawnOk ["a", "b"]).child ["x"] 0).line = "" →
          (ProcessStream.begin 1 w).1.eq (ProcessStream.end_ 1) = true) :=
  ⟨by decide,
    begin_positioned_on_first_line (spawnOk ["a", "b"]) 1 "/bin/cat" [] ["x"] idleWorld
      (by decide)⟩

/-- C10: when the child's answer number `n + 1` is the empty result (its output
is at most `n` lines), the cursor obtained from `begin()` equals `end()` of the
same stream after `n` advances and after any larger number; the caller's loop
from `begin()` to `end()` terminates having collected at most `n` lines; and an
exhausted cursor stays exhausted under any number of advances. -/
theorem iteration_reaches_end (env : Env) (this : Nat) (commandPath : String)
    (commandArgs stringInput : List String) (w0 : World) (n : Nat)
    (hfork : env.forkRet ≠ 0) (hempty : (env.child stringInput n).line = "") :
    ∃ w l, ProcessStream.ctor env this commandPath commandArgs stringInput w0
        = Result.returned (w, l)
      ∧ (∀ j, n ≤ j →
          (ProcessStream.iterator.advance j (ProcessStream.begin this w).1
            (ProcessStream.begin this w).2).1.eq (ProcessStream.end_ this) = true)
      ∧ (∃ out w1, collect this (n + 1) w = some (out, w1) ∧ out.length ≤ n)
      ∧ (∀ (it : ProcessStream.iterator) (w1 : World) (j : Nat), it.isFinished = true →
          (ProcessStream.iterator.advance j it w1).1.isFinished = true) := by
  obtain ⟨w, l, hctor, hb, hr⟩ :=
    ctor_begin env this commandPath commandArgs stringInput w0 hfork
  have hps : (ProcessStream.begin this w).1.ps = this := by rw [hb]
  refine ⟨w, l, hctor, ?_, ?_, fun it w1 j h => advance_finished j it w1 h⟩
  · intro j hj
    apply eq_end_of_finished
    · rw [advance_ps]; exact hps
    · cases n with
      | zero =>
        apply advance_finished
        rw [hb]
        simp [String.isEmpty_iff, hempty]
      | succ d =>
        exact advance_reaches_empty this env.child stringInput d j 1 _ _ hps hr
          (by rw [Nat.add_comm 1 d]; exact hempty) (by omega)
  · cases n with
    | zero =>
      have hfin : (ProcessStream.begin this w).1.isFinished = true := by
        rw [hb]
        simp [String.isEmpty_iff, hempty]
      exact ⟨[], _, collectLoop_finished this 0 _ _ [] hps hfin, by simp⟩
    | succ d =>
      obtain ⟨res, hres, hlen⟩ := collectLoop_terminates this env.child stringInput d
        (d + 1 + 1) 1 _ _ [] hps hr (by rw [Nat.add_comm 1 d]; exact hempty) (by omega)
      exact ⟨res.1, res.2, hres, by simpa using hlen⟩

theorem iteration_reaches_end_witness :
    (spawnOk ["a", "b"]).forkRet ≠ 0
    ∧ ((spawnOk ["a", "b"]).child ["x"] 2).line = ""
    ∧ ∃ w l, ProcessStream.ctor (spawnOk ["a", "b"]) 1 "/bin/cat" [] ["x"] idleWorld
        = Result.returned (w, l)
      ∧ (∀ j, 2 ≤ j →
          (ProcessStream.iterator.advance j (ProcessStream.begin 1 w).1
            (ProcessStream.begin 1 w).2).1.eq (ProcessStream.end_ 1) = true)
      ∧ (∃ out w1, collect 1 (2 + 1) w = some (out, w1) ∧ out.length ≤ 2)
      ∧ (∀ (it : ProcessStream.iterator) (w1 : World) (j : Nat), it.isFinished = true →
          (ProcessStream.iterator.advance j it w1).1.isFinished = true) :=
  ⟨by decide, by decide,
    iteration_reaches_end (spawnOk ["a", "b"]) 1 "/bin/cat" [] ["x"] idleWorld 2
      (by decide) (by decide)⟩

end subprocess
